import Mathlib

/-!
Shallow embedding of the `bq2cst` scanner (`src/lexer.rs`) and proofs about it.

The Rust lexer holds the input as `Vec<char>` together with a cursor
(`position`, `line`, `column`), a `type_declaration_depth : usize` counter and
the accumulated `tokens : Vec<Token>`.  We model characters by `Char`, the
input by `List Char`, and `usize` counters by `Nat` — except the
`type_declaration_depth` counter, which we model by `Int` so that the
claimed invariant "the depth never becomes negative" is not a triviality of the
carrier type: the source decrements it only under the guard `0 < depth`
(lexer.rs lines 187-191), and that guard is what keeps the `usize` from
underflowing.

Every fallible Rust method returns `LexerResult<T> = Result<T, LexerError>`;
Rust additionally may panic (`tokens.last().unwrap()` in the `<` branch,
lexer.rs line 178, and the defensive `panic!` in `next_char`, line 85).  We
therefore embed results in a three-valued type `LexResult` with constructors
`ok`, `err` and `panicked`.

The Rust `while` loops all advance the cursor through `next_char` (which fails
at end of input) on every iteration, so each loop performs at most
`input.len() + 1 - position` iterations before returning.  We embed each loop
structurally with exactly that much fuel, computed at loop entry; running out
of fuel is unreachable for states with `position ≤ input.length` (every state
the scanner can actually be in) and is mapped to `panicked`.
-/

set_option maxRecDepth 20000

namespace Bq2cst

/-- A produced token: 1-based position of its first character plus the exact
source substring it spans (`token.rs` holds the struct; fields per spec §3). -/
structure Token where
  line : Nat
  column : Nat
  literal : List Char
  deriving Repr, DecidableEq

/-- Modelled from the spec: `Token::new` lives in the repository's `token.rs`,
which is not under `src/`; spec §3 fixes its fields — the 1-based position of
the token's first character and the exact literal. -/
def Token.new (line : Nat) (column : Nat) (literal : List Char) : Token :=
  ⟨line, column, literal⟩

/-- Modelled from the spec: `Token::eof` lives in `token.rs`, which is not
under `src/`.  The spec (§3, §6) says the end-of-stream token has an empty
literal and claims its position is the final cursor position; but the call
`Token::eof()` in `tokenize_code` (lexer.rs line 56) passes no arguments, so
the constructor cannot observe the cursor and its position is necessarily an
input-independent constant.  We model it with the placeholder position (0, 0);
any constant refutes the "final cursor position" clause. -/
def Token.eof : Token := Token.new 0 0 []

/-- `LexerError` (lexer.rs lines 7-12). -/
structure LexerError where
  line : Nat
  column : Nat
  message : String
  deriving Repr, DecidableEq

/-- `LexerError::new` (lexer.rs lines 15-21). -/
def LexerError.new (line : Nat) (column : Nat) (message : String) : LexerError :=
  ⟨line, column, message⟩

/-- `LexerError::eof` (lexer.rs lines 22-24). -/
def LexerError.eof (line : Nat) (column : Nat) : LexerError :=
  LexerError.new line column ("Unexpected EOF.")

/-- Result of a Rust method: `Ok`, `Err`, or a panic (`unwrap` on `None`,
`panic!`, or — in this embedding only — fuel exhaustion of a loop, which is
unreachable from states with `position ≤ input.length`). -/
inductive LexResult (α : Type) where
  | ok : α → LexResult α
  | err : LexerError → LexResult α
  | panicked : LexResult α
  deriving Repr, DecidableEq

/-- The `?` operator: propagate `Err` (and panics). -/
def LexResult.bind {α β : Type} (r : LexResult α) (f : α → LexResult β) : LexResult β :=
  match r with
  | LexResult.ok a => f a
  | LexResult.err e => LexResult.err e
  | LexResult.panicked => LexResult.panicked

/-- The scanner state (`struct Lexer`, lexer.rs lines 29-36). -/
structure Lexer where
  input : List Char
  position : Nat
  line : Nat
  column : Nat
  type_declaration_depth : Int
  tokens : List Token
  deriving Repr, DecidableEq

/-- `Lexer::new` (lexer.rs lines 40-50). -/
def Lexer.new (input : List Char) : Lexer :=
  ⟨input, 0, 1, 1, 0, []⟩

-- ----- character classification (lexer.rs lines 413-446) -----

/-- `is_digit` (lexer.rs lines 413-418): Rust `char::is_digit(10)`. -/
def is_digit (ch : Option Char) : Bool :=
  match ch with
  | some c => c.isDigit
  | none => false

/-- `is_end_of_line` (lexer.rs lines 420-425); EOF is treated as end of line. -/
def is_end_of_line (ch : Option Char) : Bool :=
  match ch with
  | some c => c = '\n'
  | none => true

/-- `is_valid_1st_char_of_ident` (lexer.rs lines 427-432).  Rust
`char::is_alphabetic` tests the Unicode `Alphabetic` property; we model it by
its ASCII restriction `Char.isAlpha`, which agrees on every character
appearing in the claims. -/
def is_valid_1st_char_of_ident (ch : Option Char) : Bool :=
  match ch with
  | some c => c.isAlpha || c = '_'
  | none => false

/-- `is_valid_char_of_ident` (lexer.rs lines 434-439), same ASCII restriction. -/
def is_valid_char_of_ident (ch : Option Char) : Bool :=
  match ch with
  | some c => c.isAlpha || c.isDigit || c = '_'
  | none => false

/-- Rust `char::is_whitespace`: the Unicode `White_Space` property ("specified
in the Unicode Character Database", lexer.rs line 443) — all 25 White_Space
code points: tab, LF, vertical tab, form feed, CR, space, NEL, no-break
space, Ogham space mark, the U+2000..U+200A spaces, line separator, paragraph
separator, narrow no-break space, medium mathematical space, and ideographic
space. -/
def char_is_whitespace (c : Char) : Bool :=
  c = '\t' || c = '\n' || c = '\u000B' || c = '\u000C' || c = '\r' || c = ' ' ||
  c = '\u0085' || c = '\u00A0' || c = '\u1680' ||
  ('\u2000' ≤ c && c ≤ '\u200A') ||
  c = '\u2028' || c = '\u2029' || c = '\u202F' || c = '\u205F' || c = '\u3000'

/-- `is_whitespace` (lexer.rs lines 441-446). -/
def is_whitespace (ch : Option Char) : Bool :=
  match ch with
  | some c => char_is_whitespace c
  | none => false

/-- Rust `str::to_uppercase` restricted to ASCII (used only to compare with
the ASCII literals ARRAY and STRUCT, lexer.rs lines 178-179). -/
def to_uppercase (l : List Char) : List Char := l.map Char.toUpper

/-- Rust `str::trim_end` (used on line-comment literals, lexer.rs line 257). -/
def trim_end (l : List Char) : List Char :=
  (l.reverse.dropWhile char_is_whitespace).reverse

/-- Rust slice `input[a..b]` of a `Vec<char>`. -/
def sliceCh (input : List Char) (a b : Nat) : List Char := (input.take b).drop a

-- ----- cursor primitives -----

/-- `Lexer::get_char` (lexer.rs lines 65-71): bounds-checked lookahead. -/
def Lexer.get_char (s : Lexer) (offset : Nat) : Option Char :=
  s.input[s.position + offset]?

/-- `Lexer::next_char` (lexer.rs lines 72-87): advance one code point,
updating line/column; `Err` exactly at end of input; the final `else` branch
is Rust `panic!("Something went wrong!")`. -/
def Lexer.next_char (s : Lexer) : LexResult Lexer :=
  if h : s.position < s.input.length then
    if s.input[s.position] = '\n' then
      LexResult.ok { s with column := 1, line := s.line + 1, position := s.position + 1 }
    else
      LexResult.ok { s with column := s.column + 1, position := s.position + 1 }
  else if s.position = s.input.length then
    LexResult.err (LexerError.eof s.line s.column)
  else
    LexResult.panicked

/-- `Lexer::construct_token` (lexer.rs lines 60-64): append a new token and
hand it back. -/
def Lexer.construct_token (s : Lexer) (line : Nat) (column : Nat) (literal : List Char) :
    Token × Lexer :=
  let token := Token.new line column literal
  (token, { s with tokens := s.tokens ++ [token] })

-- ----- loops -----

/-- One Rust `while cond { body }` loop, with explicit fuel.  Every loop body
in the source advances the cursor (via `next_char`) or fails, so the fuel
chosen in `Lexer.run_loop` is always sufficient from reachable states;
exhaustion is mapped to `panicked`. -/
def Lexer.loop_aux (cond : Lexer → Bool) (body : Lexer → LexResult Lexer) :
    Nat → Lexer → LexResult Lexer
  | 0, _ => LexResult.panicked
  | Nat.succ fuel, s =>
    if cond s then LexResult.bind (body s) (Lexer.loop_aux cond body fuel)
    else LexResult.ok s

/-- Run a source `while` loop from state `s`. -/
def Lexer.run_loop (cond : Lexer → Bool) (body : Lexer → LexResult Lexer) (s : Lexer) :
    LexResult Lexer :=
  Lexer.loop_aux cond body (s.input.length + 1 - s.position) s

/-- `for _ in 0..n { self.next_char()?; }` (used in `skip_escaped_char`). -/
def Lexer.advance_n : Nat → Lexer → LexResult Lexer
  | 0, s => LexResult.ok s
  | Nat.succ n, s => LexResult.bind s.next_char (Lexer.advance_n n)

-- ----- skip -----

/-- `Lexer::skip_escaped_char` (lexer.rs lines 370-404): consume the backslash,
then a number of characters fixed by the selector character, then one more. -/
def Lexer.skip_escaped_char (s : Lexer) : LexResult Lexer :=
  LexResult.bind s.next_char fun s =>
    LexResult.bind
      (match s.get_char 0 with
       | some 'x' => Lexer.advance_n 2 s
       | some 'u' => Lexer.advance_n 4 s
       | some 'U' => Lexer.advance_n 8 s
       | some c =>
         if '0' ≤ c ∧ c ≤ '7' then Lexer.advance_n 3 s
         else LexResult.ok s
       | none => LexResult.err (LexerError.eof s.line s.column))
      fun s => s.next_char

/-- `Lexer::skip_whitespace` (lexer.rs lines 405-410). -/
def Lexer.skip_whitespace (s : Lexer) : LexResult Lexer :=
  Lexer.run_loop (fun t => is_whitespace (t.get_char 0)) Lexer.next_char s

-- ----- read -----

/-- `Lexer::read_comment` (lexer.rs lines 249-260): to end of line (exclusive),
trailing whitespace trimmed from the literal. -/
def Lexer.read_comment (s : Lexer) : LexResult (List Char × Lexer) :=
  let first_position := s.position
  LexResult.bind
    (Lexer.run_loop (fun t => !(is_end_of_line (t.get_char 0))) Lexer.next_char s)
    fun s => LexResult.ok (trim_end (sliceCh s.input first_position s.position), s)

/-- `Lexer::read_identifier` (lexer.rs lines 261-279): defensive start-character
check, then a maximal run of identifier-continue characters. -/
def Lexer.read_identifier (s : Lexer) : LexResult (List Char × Lexer) :=
  let first_position := s.position
  let first_char := s.get_char 0
  if !(is_valid_1st_char_of_ident first_char) then
    LexResult.err (LexerError.new s.line s.column ("Invalid character as an identifier."))
  else
    LexResult.bind s.next_char fun s =>
      LexResult.bind
        (Lexer.run_loop (fun t => is_valid_char_of_ident (t.get_char 0)) Lexer.next_char s)
        fun s => LexResult.ok (sliceCh s.input first_position s.position, s)

/-- `Lexer::read_multiline_comment` (lexer.rs lines 280-291): to the first
`*/`, inclusive. -/
def Lexer.read_multiline_comment (s : Lexer) : LexResult (List Char × Lexer) :=
  let first_position := s.position
  LexResult.bind
    (Lexer.run_loop
      (fun t => !(t.get_char 0 == some '*' && t.get_char 1 == some '/'))
      Lexer.next_char s)
    fun s =>
      LexResult.bind s.next_char fun s =>
        LexResult.bind s.next_char fun s =>
          LexResult.ok (sliceCh s.input first_position s.position, s)

/-- The loop body shared by the quoted scanners: an escape when the current
character is a backslash, a single advance otherwise. -/
def Lexer.quoted_body (s : Lexer) : LexResult Lexer :=
  if s.get_char 0 == some '\\' then s.skip_escaped_char else s.next_char

/-- `Lexer::read_multiline_string` (lexer.rs lines 292-311). -/
def Lexer.read_multiline_string (s : Lexer) : LexResult (List Char × Lexer) :=
  let first_position := s.position
  let ch := s.get_char 0
  LexResult.bind s.next_char fun s =>
    LexResult.bind
      (Lexer.run_loop
        (fun t => !(t.get_char 0 == ch && t.get_char 1 == ch && t.get_char 2 == ch))
        Lexer.quoted_body s)
      fun s =>
        LexResult.bind s.next_char fun s =>
          LexResult.bind s.next_char fun s =>
            LexResult.bind s.next_char fun s =>
              LexResult.ok (sliceCh s.input first_position s.position, s)

/-- `Lexer::read_quoted` (lexer.rs lines 352-368). -/
def Lexer.read_quoted (s : Lexer) : LexResult (List Char × Lexer) :=
  let quote := s.get_char 0
  let first_position := s.position
  LexResult.bind s.next_char fun s =>
    LexResult.bind
      (Lexer.run_loop (fun t => !(t.get_char 0 == quote)) Lexer.quoted_body s)
      fun s =>
        LexResult.bind s.next_char fun s =>
          LexResult.ok (sliceCh s.input first_position s.position, s)

/-- The exponent part of `read_number`: `e`, optional sign, digits
(lexer.rs lines 323-331). -/
def Lexer.read_number_exp (s : Lexer) : LexResult Lexer :=
  LexResult.bind s.next_char fun s =>
    LexResult.bind
      (match s.get_char 0 with
       | some '+' => s.next_char
       | some '-' => s.next_char
       | _ => LexResult.ok s)
      fun s => Lexer.run_loop (fun t => is_digit (t.get_char 0)) Lexer.next_char s

/-- `Lexer::read_number` (lexer.rs lines 312-336): digits, optional fraction,
optional exponent with optional sign. -/
def Lexer.read_number (s : Lexer) : LexResult (List Char × Lexer) :=
  let first_position := s.position
  LexResult.bind (Lexer.run_loop (fun t => is_digit (t.get_char 0)) Lexer.next_char s) fun s =>
    LexResult.bind
      (if s.get_char 0 == some '.' then
        LexResult.bind s.next_char fun s =>
          Lexer.run_loop (fun t => is_digit (t.get_char 0)) Lexer.next_char s
      else LexResult.ok s)
      fun s =>
        LexResult.bind
          (match s.get_char 0 with
           | some 'E' => Lexer.read_number_exp s
           | some 'e' => Lexer.read_number_exp s
           | _ => LexResult.ok s)
          fun s => LexResult.ok (sliceCh s.input first_position s.position, s)

/-- `Lexer::read_parameter` (lexer.rs lines 337-351): a run of `@`, then a
quoted identifier or a plain identifier; the literal spans the whole form. -/
def Lexer.read_parameter (s : Lexer) : LexResult (List Char × Lexer) :=
  let first_position := s.position
  LexResult.bind
    (Lexer.run_loop (fun t => t.get_char 0 == some '@') Lexer.next_char s)
    fun s =>
      LexResult.bind
        (if s.get_char 0 == some '`' then
          LexResult.bind s.read_quoted fun r => LexResult.ok r.2
        else
          LexResult.bind s.read_identifier fun r => LexResult.ok r.2)
        fun s => LexResult.ok (sliceCh s.input first_position s.position, s)

-- ----- the dispatch -----

/-- `self.next_char()?; self.construct_token(line, column, ch.to_string())`. -/
def Lexer.single_char_token (s : Lexer) (line : Nat) (column : Nat) (ch : Char) :
    LexResult (Token × Lexer) :=
  LexResult.bind s.next_char fun s =>
    LexResult.ok (Lexer.construct_token s line column [ch])

/-- Two `next_char` calls then `construct_token` with a two-character literal. -/
def Lexer.double_char_token (s : Lexer) (line : Nat) (column : Nat) (lit : List Char) :
    LexResult (Token × Lexer) :=
  LexResult.bind s.next_char fun s =>
    LexResult.bind s.next_char fun s =>
      LexResult.ok (Lexer.construct_token s line column lit)

/-- A `read_*` call followed by `construct_token` on its literal. -/
def Lexer.read_token (read : Lexer → LexResult (List Char × Lexer)) (s : Lexer)
    (line : Nat) (column : Nat) : LexResult (Token × Lexer) :=
  LexResult.bind (read s) fun r =>
    LexResult.ok (Lexer.construct_token r.2 line column r.1)

/-- `Lexer::next_token` (lexer.rs lines 88-247): skip whitespace; `None` at end
of input; otherwise dispatch on the current character.  In the bare-`<` branch
`self.tokens.last().unwrap()` panics when no token has been produced yet
(lexer.rs line 178); in the `>` branch a positive `type_declaration_depth`
forces a single-character token (lexer.rs lines 187-191). -/
def Lexer.next_token (s0 : Lexer) : LexResult (Option Token × Lexer) :=
  LexResult.bind s0.skip_whitespace fun s =>
    match s.get_char 0 with
    | none => LexResult.ok (none, s)
    | some ch =>
      let line := s.line
      let column := s.column
      LexResult.bind
        (match ch with
        | '.' =>
          match s.get_char 1 with
          | some c2 =>
            if '0' ≤ c2 ∧ c2 ≤ '9' then Lexer.read_token Lexer.read_number s line column
            else Lexer.single_char_token s line column ch
          | none => Lexer.single_char_token s line column ch
        | '#' => Lexer.read_token Lexer.read_comment s line column
        | '`' => Lexer.read_token Lexer.read_quoted s line column
        | '"' =>
          if s.get_char 1 == some '"' && s.get_char 2 == some '"' then
            Lexer.read_token Lexer.read_multiline_string s line column
          else Lexer.read_token Lexer.read_quoted s line column
        | '\'' =>
          if s.get_char 1 == some '\'' && s.get_char 2 == some '\'' then
            Lexer.read_token Lexer.read_multiline_string s line column
          else Lexer.read_token Lexer.read_quoted s line column
        | '-' =>
          if s.get_char 1 == some '-' then Lexer.read_token Lexer.read_comment s line column
          else Lexer.single_char_token s line column ch
        | '/' =>
          if s.get_char 1 == some '*' then
            Lexer.read_token Lexer.read_multiline_comment s line column
          else Lexer.single_char_token s line column ch
        | '|' =>
          if s.get_char 1 == some '|' then Lexer.double_char_token s line column ['|', '|']
          else Lexer.single_char_token s line column ch
        | '<' =>
          if s.get_char 1 == some '<' then Lexer.double_char_token s line column ['<', '<']
          else if s.get_char 1 == some '=' then Lexer.double_char_token s line column ['<', '=']
          else if s.get_char 1 == some '>' then Lexer.double_char_token s line column ['<', '>']
          else
            match s.tokens.getLast? with
            | none => LexResult.panicked
            | some prev =>
              let s1 :=
                if to_uppercase prev.literal = ("ARRAY".toList)
                    ∨ to_uppercase prev.literal = ("STRUCT".toList) then
                  { s with type_declaration_depth := s.type_declaration_depth + 1 }
                else s
              Lexer.single_char_token s1 line column ch
        | '>' =>
          if 0 < s.type_declaration_depth then
            Lexer.single_char_token
              { s with type_declaration_depth := s.type_declaration_depth - 1 } line column ch
          else if s.get_char 1 == some '>' then Lexer.double_char_token s line column ['>', '>']
          else if s.get_char 1 == some '=' then Lexer.double_char_token s line column ['>', '=']
          else Lexer.single_char_token s line column ch
        | '=' =>
          if s.get_char 1 == some '>' then Lexer.double_char_token s line column ['=', '>']
          else Lexer.single_char_token s line column ch
        | '!' =>
          if s.get_char 1 == some '=' then Lexer.double_char_token s line column ['!', '=']
          else Lexer.single_char_token s line column ch
        | '@' => Lexer.read_token Lexer.read_parameter s line column
        | c =>
          if '0' ≤ c ∧ c ≤ '9' then Lexer.read_token Lexer.read_number s line column
          else if is_valid_1st_char_of_ident (some c) then
            Lexer.read_token Lexer.read_identifier s line column
          else Lexer.single_char_token s line column c)
        fun p => LexResult.ok (some p.1, p.2)

/-- The `tokenize_code` driver loop (lexer.rs lines 51-58), with the same fuel
convention as the `while` loops: each produced token advances the cursor. -/
def Lexer.tokenize_loop : Nat → Lexer → LexResult (List Token)
  | 0, _ => LexResult.panicked
  | Nat.succ fuel, s =>
    LexResult.bind s.next_token fun r =>
      match r.1 with
      | some _ => Lexer.tokenize_loop fuel r.2
      | none => LexResult.ok (r.2.tokens ++ [Token.eof])

/-- `Lexer::tokenize_code` (lexer.rs lines 51-58). -/
def Lexer.tokenize_code (s : Lexer) : LexResult (List Token) :=
  Lexer.tokenize_loop (s.input.length + 1 - s.position) s

/-- The whole scanner: `Lexer::new(input).tokenize_code()`. -/
def tokenize (input : List Char) : LexResult (List Token) :=
  (Lexer.new input).tokenize_code

/-- The cursor position reached after consuming the whole input, starting from
(1, 1) and applying the `next_char` update rule to every character (spec §3:
"position = final cursor position"). -/
def cursor_after (input : List Char) : Nat × Nat :=
  input.foldl (fun p c => if c = '\n' then (p.1 + 1, 1) else (p.1, p.2 + 1)) (1, 1)

/-- `n` iterations of `next_token` from a state: the reachable scanner states
at token granularity. -/
def step_n : Nat → Lexer → LexResult Lexer
  | 0, s => LexResult.ok s
  | Nat.succ n, s => LexResult.bind s.next_token fun r => step_n n r.2

/-- Concatenation of the literals of a token list. -/
def concat_literals (ts : List Token) : List Char :=
  ts.foldr (fun t acc => t.literal ++ acc) []

/-- Drop the whitespace characters of a string. -/
def filter_non_ws (l : List Char) : List Char :=
  l.filter (fun c => !(char_is_whitespace c))

/-! ## Basic lemmas about results, the cursor, and slices -/

theorem LexResult.bind_eq_ok {α β : Type} {r : LexResult α} {f : α → LexResult β}
    {b : β} : LexResult.bind r f = LexResult.ok b ↔ ∃ a, r = LexResult.ok a ∧ f a = LexResult.ok b := by
  cases r <;> simp [LexResult.bind]

/-- What `next_char` guarantees when it succeeds. -/
theorem next_char_ok {s s' : Lexer} (h : s.next_char = LexResult.ok s') :
    s'.input = s.input ∧ s'.tokens = s.tokens ∧
    s'.type_declaration_depth = s.type_declaration_depth ∧
    s'.position = s.position + 1 ∧ s.position < s.input.length := by
  unfold Lexer.next_char at h
  split at h
  · split at h <;> cases h <;> simp_all
  · split at h <;> cases h

/-- `next_char` always succeeds strictly inside the input. -/
theorem next_char_total {s : Lexer} (h : s.position < s.input.length) :
    ∃ s', s.next_char = LexResult.ok s' ∧ s'.input = s.input ∧ s'.tokens = s.tokens ∧
      s'.type_declaration_depth = s.type_declaration_depth ∧ s'.position = s.position + 1 := by
  unfold Lexer.next_char
  rw [dif_pos h]
  split <;> exact ⟨_, rfl, rfl, rfl, rfl, rfl⟩

/-- The state evolution common to every scanning routine: the input, the token
list and the depth counter are untouched, and the cursor moves forward (if it
moves at all, it stays inside the input). -/
structure Span (s s' : Lexer) : Prop where
  input_eq : s'.input = s.input
  tokens_eq : s'.tokens = s.tokens
  depth_eq : s'.type_declaration_depth = s.type_declaration_depth
  pos_le : s.position ≤ s'.position
  pos_bound : s'.position ≤ s.input.length ∨ s'.position = s.position

theorem Span.refl (s : Lexer) : Span s s :=
  ⟨rfl, rfl, rfl, Nat.le_refl _, Or.inr rfl⟩

theorem Span.trans {s s' s'' : Lexer} (h1 : Span s s') (h2 : Span s' s'') : Span s s'' := by
  refine ⟨h2.input_eq.trans h1.input_eq, h2.tokens_eq.trans h1.tokens_eq,
    h2.depth_eq.trans h1.depth_eq, Nat.le_trans h1.pos_le h2.pos_le, ?_⟩
  rcases h2.pos_bound with hb | hb
  · exact Or.inl (h1.input_eq ▸ hb)
  · rcases h1.pos_bound with hb' | hb'
    · exact Or.inl (hb ▸ hb')
    · exact Or.inr (hb.trans hb')

theorem next_char_span {s s' : Lexer} (h : s.next_char = LexResult.ok s') :
    Span s s' ∧ s.position < s'.position := by
  obtain ⟨h1, h2, h3, h4, h5⟩ := next_char_ok h
  exact ⟨⟨h1, h2, h3, by omega, Or.inl (by omega)⟩, by omega⟩

theorem advance_n_span : ∀ (n : Nat) {s s' : Lexer},
    Lexer.advance_n n s = LexResult.ok s' → Span s s' ∧ s'.position = s.position + n := by
  intro n
  induction n with
  | zero => intro s s' h; cases h; exact ⟨Span.refl _, rfl⟩
  | succ m ih =>
    intro s s' h
    rw [Lexer.advance_n, LexResult.bind_eq_ok] at h
    obtain ⟨s1, h1, h2⟩ := h
    obtain ⟨hsp1, hlt1⟩ := next_char_span h1
    obtain ⟨hsp2, hpos2⟩ := ih h2
    refine ⟨hsp1.trans hsp2, ?_⟩
    have := (next_char_ok h1).2.2.2.1
    omega

theorem skip_escaped_char_span {s s' : Lexer}
    (h : s.skip_escaped_char = LexResult.ok s') : Span s s' ∧ s.position < s'.position := by
  unfold Lexer.skip_escaped_char at h
  rw [LexResult.bind_eq_ok] at h
  obtain ⟨s1, h1, h2⟩ := h
  rw [LexResult.bind_eq_ok] at h2
  obtain ⟨s2, h2, h3⟩ := h2
  obtain ⟨hsp1, hlt1⟩ := next_char_span h1
  obtain ⟨hsp3, hlt3⟩ := next_char_span h3
  have hsp2 : Span s1 s2 := by
    split at h2
    · exact (advance_n_span 2 h2).1
    · exact (advance_n_span 4 h2).1
    · exact (advance_n_span 8 h2).1
    · split at h2
      · exact (advance_n_span 3 h2).1
      · cases h2; exact Span.refl _
    · cases h2
  exact ⟨(hsp1.trans hsp2).trans hsp3,
    lt_of_lt_of_le hlt1 (le_trans hsp2.pos_le (le_of_lt hlt3))⟩

theorem quoted_body_span {s s' : Lexer} (h : Lexer.quoted_body s = LexResult.ok s') :
    Span s s' ∧ s.position < s'.position := by
  unfold Lexer.quoted_body at h
  split at h
  · exact skip_escaped_char_span h
  · exact next_char_span h

/-- A successful `while` loop whose body always advances: the loop spans
forward; it either did nothing (the condition was false at entry) or moved
strictly ahead. -/
theorem loop_aux_span {cond : Lexer → Bool} {body : Lexer → LexResult Lexer}
    (hbody : ∀ t t', body t = LexResult.ok t' → Span t t' ∧ t.position < t'.position) :
    ∀ (fuel : Nat) {s s' : Lexer}, Lexer.loop_aux cond body fuel s = LexResult.ok s' →
      Span s s' ∧ ((cond s = false ∧ s' = s) ∨ s.position < s'.position) := by
  intro fuel
  induction fuel with
  | zero => intro s s' h; cases h
  | succ m ih =>
    intro s s' h
    rw [Lexer.loop_aux] at h
    split at h
    · rw [LexResult.bind_eq_ok] at h
      obtain ⟨t, hbt, hrest⟩ := h
      obtain ⟨hsp1, hlt1⟩ := hbody _ _ hbt
      obtain ⟨hsp2, -⟩ := ih hrest
      exact ⟨hsp1.trans hsp2, Or.inr (lt_of_lt_of_le hlt1 hsp2.pos_le)⟩
    · cases h
      exact ⟨Span.refl _, Or.inl ⟨by simp_all, rfl⟩⟩

theorem run_loop_span {cond : Lexer → Bool} {body : Lexer → LexResult Lexer}
    (hbody : ∀ t t', body t = LexResult.ok t' → Span t t' ∧ t.position < t'.position)
    {s s' : Lexer} (h : Lexer.run_loop cond body s = LexResult.ok s') :
    Span s s' ∧ ((cond s = false ∧ s' = s) ∨ s.position < s'.position) :=
  loop_aux_span hbody _ h

/-- A loop over `next_char` whose condition fails at end of input always
succeeds, given the exact fuel budget of `run_loop`. -/
theorem loop_next_char_total {cond : Lexer → Bool}
    (hcond : ∀ t : Lexer, t.input.length ≤ t.position → cond t = false) :
    ∀ (fuel : Nat) (s : Lexer), s.position ≤ s.input.length →
      s.input.length + 1 - s.position ≤ fuel →
      ∃ s', Lexer.loop_aux cond Lexer.next_char fuel s = LexResult.ok s' := by
  intro fuel
  induction fuel with
  | zero => intro s h1 h2; omega
  | succ m ih =>
    intro s h1 h2
    rw [Lexer.loop_aux]
    by_cases hc : cond s
    · rw [if_pos hc]
      have hlt : s.position < s.input.length := by
        rcases Nat.lt_or_ge s.position s.input.length with h | h
        · exact h
        · rw [hcond s h] at hc; cases hc
      obtain ⟨s1, hnc, hi, -, -, hp⟩ := next_char_total hlt
      rw [hnc]
      obtain ⟨s', hs'⟩ := ih s1 (by rw [hi, hp]; omega) (by rw [hi, hp]; omega)
      exact ⟨s', by simpa [LexResult.bind] using hs'⟩
    · rw [if_neg hc]; exact ⟨s, rfl⟩

/-! ## Slice lemmas -/

theorem sliceCh_self (l : List Char) (a : Nat) : sliceCh l a a = [] := by
  unfold sliceCh
  exact List.drop_eq_nil_of_le (by simp [List.length_take])

theorem sliceCh_length (l : List Char) (a : Nat) : sliceCh l a l.length = l.drop a := by
  unfold sliceCh
  rw [List.take_length]

theorem sliceCh_single {l : List Char} {p : Nat} (h : p < l.length) :
    sliceCh l p (p + 1) = [l[p]] := by
  unfold sliceCh
  rw [List.drop_take, Nat.add_sub_cancel_left, List.drop_eq_getElem_cons h]
  rfl

theorem sliceCh_pair {l : List Char} {p : Nat} (h : p + 1 < l.length) :
    sliceCh l p (p + 2) = [l[p], l[p + 1]] := by
  unfold sliceCh
  rw [List.drop_take, show p + 2 - p = 2 from by omega,
    List.drop_eq_getElem_cons (show p < l.length from by omega),
    List.drop_eq_getElem_cons h]
  rfl

theorem sliceCh_append {l : List Char} {a b c : Nat} (h1 : a ≤ b) (h2 : b ≤ c)
    (h3 : b ≤ l.length) : sliceCh l a c = sliceCh l a b ++ sliceCh l b c := by
  unfold sliceCh
  have hX : List.take c l = List.take b l ++ List.drop b (List.take c l) := by
    conv_lhs => rw [← List.take_append_drop b (List.take c l)]
    rw [List.take_take, min_eq_left h2]
  nth_rewrite 1 [hX]
  rw [List.drop_append_eq_append_drop]
  have hlen : (List.take b l).length = b := by
    rw [List.length_take]
    omega
  rw [hlen, Nat.sub_eq_zero_of_le h1, List.drop_zero]

theorem drop_eq_sliceCh_append {l : List Char} {a b : Nat} (h1 : a ≤ b)
    (h3 : b ≤ l.length) : l.drop a = sliceCh l a b ++ l.drop b := by
  rw [← sliceCh_length l a, ← sliceCh_length l b]
  exact sliceCh_append h1 h3 h3

/-! ## Whitespace and trimming -/

theorem filter_non_ws_append (a b : List Char) :
    filter_non_ws (a ++ b) = filter_non_ws a ++ filter_non_ws b := by
  unfold filter_non_ws
  exact List.filter_append a b

theorem filter_dropWhile_ws (l : List Char) :
    (l.dropWhile char_is_whitespace).filter (fun c => !(char_is_whitespace c)) =
      l.filter (fun c => !(char_is_whitespace c)) := by
  induction l with
  | nil => rfl
  | cons a l ih =>
    by_cases ha : char_is_whitespace a
    · rw [List.dropWhile_cons_of_pos (by simpa using ha), ih,
        List.filter_cons_of_neg (by simp [ha])]
    · rw [List.dropWhile_cons_of_neg (by simpa using ha)]

/-- Trimming trailing whitespace from a line-comment literal does not change
its non-whitespace content. -/
theorem filter_non_ws_trim_end (l : List Char) :
    filter_non_ws (trim_end l) = filter_non_ws l := by
  unfold filter_non_ws trim_end
  rw [List.filter_reverse, filter_dropWhile_ws, List.filter_reverse, List.reverse_reverse]

/-- The slice skipped by a whitespace loop contains no non-whitespace
character. -/
theorem ws_loop_filter :
    ∀ (fuel : Nat) {s s' : Lexer},
      Lexer.loop_aux (fun t => is_whitespace (t.get_char 0)) Lexer.next_char fuel s =
        LexResult.ok s' →
      filter_non_ws (sliceCh s.input s.position s'.position) = [] := by
  intro fuel
  induction fuel with
  | zero => intro s s' h; cases h
  | succ m ih =>
    intro s s' h
    rw [Lexer.loop_aux] at h
    split at h
    case isTrue hc =>
      rw [LexResult.bind_eq_ok] at h
      obtain ⟨s1, hnc, hrest⟩ := h
      obtain ⟨hi, -, -, hp, hlt⟩ := next_char_ok hnc
      have hspan := (loop_aux_span (fun _ _ h => next_char_span h) m hrest).1
      have hc' : char_is_whitespace (s.input[s.position]) = true := by
        unfold is_whitespace Lexer.get_char at hc
        rw [Nat.add_zero, List.getElem?_eq_getElem hlt] at hc
        exact hc
      have hsplit : sliceCh s.input s.position s'.position =
          sliceCh s.input s.position (s.position + 1) ++
            sliceCh s.input (s.position + 1) s'.position := by
        refine sliceCh_append (by omega) ?_ (by omega)
        rw [← hp]
        exact hspan.pos_le
      rw [hsplit, filter_non_ws_append, sliceCh_single hlt]
      have hrec := ih hrest
      rw [hi, hp] at hrec
      rw [hrec]
      simp [filter_non_ws, hc']
    case isFalse hc =>
      cases h
      rw [sliceCh_self]
      rfl

/-- On an all-whitespace remainder, the whitespace loop consumes everything
and stops exactly at the end of the input. -/
theorem ws_loop_total :
    ∀ (fuel : Nat) (s : Lexer),
      (∀ i c, s.position ≤ i → s.input[i]? = some c → char_is_whitespace c = true) →
      s.position ≤ s.input.length → s.input.length + 1 - s.position ≤ fuel →
      ∃ s', Lexer.loop_aux (fun t => is_whitespace (t.get_char 0)) Lexer.next_char fuel s =
          LexResult.ok s' ∧
        s'.input = s.input ∧ s'.tokens = s.tokens ∧
        s'.type_declaration_depth = s.type_declaration_depth ∧
        s'.position = s.input.length := by
  intro fuel
  induction fuel with
  | zero => intro s hws h1 h2; omega
  | succ m ih =>
    intro s hws h1 h2
    rw [Lexer.loop_aux]
    rcases Nat.lt_or_ge s.position s.input.length with hlt | hge
    · have hc : is_whitespace (s.get_char 0) = true := by
        unfold is_whitespace Lexer.get_char
        rw [Nat.add_zero, List.getElem?_eq_getElem hlt]
        exact hws s.position _ (le_refl _) (List.getElem?_eq_getElem hlt)
      rw [if_pos hc]
      obtain ⟨s1, hnc, hi, htk, hdp, hp⟩ := next_char_total hlt
      rw [hnc]
      obtain ⟨s', hloop, hi', htk', hdp', hp'⟩ :=
        ih s1 (by intro i c h1i h2i; rw [hi] at h2i; exact hws i c (by omega) h2i)
          (by rw [hi, hp]; omega) (by rw [hi, hp]; omega)
      refine ⟨s', by simpa [LexResult.bind] using hloop, ?_, ?_, ?_, ?_⟩
      · rw [hi', hi]
      · rw [htk', htk]
      · rw [hdp', hdp]
      · rw [hp', hi]
    · have hc : is_whitespace (s.get_char 0) = false := by
        unfold is_whitespace Lexer.get_char
        rw [Nat.add_zero, List.getElem?_eq_none_iff.mpr hge]
      rw [if_neg (by simp [hc])]
      exact ⟨s, rfl, rfl, rfl, rfl, by omega⟩

/-! ## What each `read_*` routine guarantees on success -/

/-- A successful `read_*` call: state untouched apart from the cursor, which
moved strictly forward and stayed in bounds; the literal has the same
non-whitespace content as the consumed slice. -/
structure ReadOut (s : Lexer) (lit : List Char) (s' : Lexer) : Prop where
  input_eq : s'.input = s.input
  tokens_eq : s'.tokens = s.tokens
  depth_eq : s'.type_declaration_depth = s.type_declaration_depth
  pos_lt : s.position < s'.position
  pos_le_len : s'.position ≤ s.input.length
  filter_eq : filter_non_ws (sliceCh s.input s.position s'.position) = filter_non_ws lit

theorem ReadOut.of_span {s s' : Lexer} {lit : List Char} (hsp : Span s s')
    (hlt : s.position < s'.position)
    (hfe : filter_non_ws (sliceCh s.input s.position s'.position) = filter_non_ws lit) :
    ReadOut s lit s' := by
  refine ⟨hsp.input_eq, hsp.tokens_eq, hsp.depth_eq, hlt, ?_, hfe⟩
  rcases hsp.pos_bound with hb | hb
  · exact hb
  · omega

theorem ReadOut.span {s s' : Lexer} {lit : List Char} (h : ReadOut s lit s') : Span s s' :=
  ⟨h.input_eq, h.tokens_eq, h.depth_eq, le_of_lt h.pos_lt, Or.inl h.pos_le_len⟩

/-- Literals produced by slicing the final state have, tautologically, the
non-whitespace content of the consumed slice. -/
theorem filter_slice_final {s s' : Lexer} (hin : s'.input = s.input) :
    filter_non_ws (sliceCh s.input s.position s'.position) =
      filter_non_ws (sliceCh s'.input s.position s'.position) := by
  rw [hin]

theorem read_quoted_out {s s' : Lexer} {lit : List Char}
    (h : s.read_quoted = LexResult.ok (lit, s')) : ReadOut s lit s' := by
  unfold Lexer.read_quoted at h
  simp only [LexResult.bind_eq_ok, LexResult.ok.injEq, Prod.mk.injEq] at h
  obtain ⟨s1, h1, s2, h2, s3, h3, hlit, hs'⟩ := h
  obtain ⟨hsp1, hlt1⟩ := next_char_span h1
  obtain ⟨hsp2, -⟩ := run_loop_span (fun _ _ ht => quoted_body_span ht) h2
  obtain ⟨hsp3, hlt3⟩ := next_char_span h3
  have hsp := (hsp1.trans hsp2).trans hsp3
  have hro : ReadOut s lit s3 := by
    refine ReadOut.of_span hsp ?_ ?_
    · have := hsp2.pos_le; omega
    · rw [← hlit]; exact filter_slice_final hsp.input_eq
  exact hs' ▸ hro

theorem read_multiline_string_out {s s' : Lexer} {lit : List Char}
    (h : s.read_multiline_string = LexResult.ok (lit, s')) : ReadOut s lit s' := by
  unfold Lexer.read_multiline_string at h
  simp only [LexResult.bind_eq_ok, LexResult.ok.injEq, Prod.mk.injEq] at h
  obtain ⟨s1, h1, s2, h2, s3, h3, s4, h4, s5, h5, hlit, hs'⟩ := h
  obtain ⟨hsp1, hlt1⟩ := next_char_span h1
  obtain ⟨hsp2, -⟩ := run_loop_span (fun _ _ ht => quoted_body_span ht) h2
  obtain ⟨hsp3, hlt3⟩ := next_char_span h3
  obtain ⟨hsp4, hlt4⟩ := next_char_span h4
  obtain ⟨hsp5, hlt5⟩ := next_char_span h5
  have hsp := (((hsp1.trans hsp2).trans hsp3).trans hsp4).trans hsp5
  have hro : ReadOut s lit s5 := by
    refine ReadOut.of_span hsp ?_ ?_
    · have := hsp2.pos_le; omega
    · rw [← hlit]; exact filter_slice_final hsp.input_eq
  exact hs' ▸ hro

theorem read_multiline_comment_out {s s' : Lexer} {lit : List Char}
    (h : s.read_multiline_comment = LexResult.ok (lit, s')) : ReadOut s lit s' := by
  unfold Lexer.read_multiline_comment at h
  simp only [LexResult.bind_eq_ok, LexResult.ok.injEq, Prod.mk.injEq] at h
  obtain ⟨s1, h1, s2, h2, s3, h3, hlit, hs'⟩ := h
  obtain ⟨hsp1, -⟩ := run_loop_span (fun _ _ ht => next_char_span ht) h1
  obtain ⟨hsp2, hlt2⟩ := next_char_span h2
  obtain ⟨hsp3, hlt3⟩ := next_char_span h3
  have hsp := (hsp1.trans hsp2).trans hsp3
  have hro : ReadOut s lit s3 := by
    refine ReadOut.of_span hsp ?_ ?_
    · have := hsp1.pos_le; omega
    · rw [← hlit]; exact filter_slice_final hsp.input_eq
  exact hs' ▸ hro

theorem read_comment_out {s s' : Lexer} {lit : List Char}
    (hside : is_end_of_line (s.get_char 0) = false)
    (h : s.read_comment = LexResult.ok (lit, s')) : ReadOut s lit s' := by
  unfold Lexer.read_comment at h
  simp only [LexResult.bind_eq_ok, LexResult.ok.injEq, Prod.mk.injEq] at h
  obtain ⟨s1, h1, hlit, hs'⟩ := h
  obtain ⟨hsp1, hdisj⟩ := run_loop_span (fun _ _ ht => next_char_span ht) h1
  have hro : ReadOut s lit s1 := by
    have hlt : s.position < s1.position := by
      rcases hdisj with ⟨hc, -⟩ | hlt
      · rw [hside] at hc; cases hc
      · exact hlt
    refine ReadOut.of_span hsp1 hlt ?_
    rw [← hlit, filter_non_ws_trim_end]
    exact filter_slice_final hsp1.input_eq
  exact hs' ▸ hro

theorem read_identifier_out {s s' : Lexer} {lit : List Char}
    (h : s.read_identifier = LexResult.ok (lit, s')) : ReadOut s lit s' := by
  unfold Lexer.read_identifier at h
  simp only [] at h
  split at h
  · exact LexResult.noConfusion h
  · simp only [LexResult.bind_eq_ok, LexResult.ok.injEq, Prod.mk.injEq] at h
    obtain ⟨s1, h1, s2, h2, hlit, hs'⟩ := h
    obtain ⟨hsp1, hlt1⟩ := next_char_span h1
    obtain ⟨hsp2, -⟩ := run_loop_span (fun _ _ ht => next_char_span ht) h2
    have hsp := hsp1.trans hsp2
    have hro : ReadOut s lit s2 := by
      refine ReadOut.of_span hsp ?_ ?_
      · have := hsp2.pos_le; omega
      · rw [← hlit]; exact filter_slice_final hsp.input_eq
    exact hs' ▸ hro

theorem read_number_exp_span {s s' : Lexer}
    (h : Lexer.read_number_exp s = LexResult.ok s') : Span s s' ∧ s.position < s'.position := by
  unfold Lexer.read_number_exp at h
  simp only [LexResult.bind_eq_ok] at h
  obtain ⟨s1, h1, s2, h2, h3⟩ := h
  obtain ⟨hsp1, hlt1⟩ := next_char_span h1
  have hsp2 : Span s1 s2 := by
    split at h2
    · exact (next_char_span h2).1
    · exact (next_char_span h2).1
    · cases h2; exact Span.refl _
  obtain ⟨hsp3, -⟩ := run_loop_span (fun _ _ ht => next_char_span ht) h3
  have hsp := (hsp1.trans hsp2).trans hsp3
  refine ⟨hsp, ?_⟩
  have := hsp2.pos_le
  have := hsp3.pos_le
  omega

theorem read_number_out {s s' : Lexer} {lit : List Char}
    (hside : is_digit (s.get_char 0) = true ∨ s.get_char 0 = some '.')
    (h : s.read_number = LexResult.ok (lit, s')) : ReadOut s lit s' := by
  unfold Lexer.read_number at h
  simp only [LexResult.bind_eq_ok, LexResult.ok.injEq, Prod.mk.injEq] at h
  obtain ⟨s1, h1, s2, h2, s3, h3, hlit, hs'⟩ := h
  obtain ⟨hsp1, hdisj1⟩ := run_loop_span (fun _ _ ht => next_char_span ht) h1
  have hstep2 : Span s1 s2 ∧ (s1.get_char 0 = some '.' → s1.position < s2.position) := by
    split at h2
    case isTrue hdot =>
      simp only [LexResult.bind_eq_ok] at h2
      obtain ⟨sm, hm1, hm2⟩ := h2
      obtain ⟨hspm1, hltm1⟩ := next_char_span hm1
      obtain ⟨hspm2, -⟩ := run_loop_span (fun _ _ ht => next_char_span ht) hm2
      refine ⟨hspm1.trans hspm2, fun _ => ?_⟩
      have := hspm2.pos_le
      omega
    case isFalse hdot =>
      cases h2
      exact ⟨Span.refl _, fun hd => absurd (by simp [hd]) hdot⟩
  obtain ⟨hsp2, hdot2⟩ := hstep2
  have hsp3 : Span s2 s3 := by
    split at h3
    · exact (read_number_exp_span h3).1
    · exact (read_number_exp_span h3).1
    · cases h3; exact Span.refl _
  have hsp := (hsp1.trans hsp2).trans hsp3
  have hro : ReadOut s lit s3 := by
    have hlt : s.position < s3.position := by
      rcases hdisj1 with ⟨hc, hq⟩ | hlt1
      · rcases hside with hdig | hdot
        · rw [hdig] at hc; cases hc
        · have hd2 : s1.position < s2.position := by
            apply hdot2
            rw [hq]
            exact hdot
          have := hsp3.pos_le
          have hq' : s1.position = s.position := by rw [hq]
          omega
      · have := hsp2.pos_le
        have := hsp3.pos_le
        omega
    refine ReadOut.of_span hsp hlt ?_
    rw [← hlit]; exact filter_slice_final hsp.input_eq
  exact hs' ▸ hro

theorem read_parameter_out {s s' : Lexer} {lit : List Char}
    (h : s.read_parameter = LexResult.ok (lit, s')) : ReadOut s lit s' := by
  unfold Lexer.read_parameter at h
  simp only [LexResult.bind_eq_ok, LexResult.ok.injEq, Prod.mk.injEq] at h
  obtain ⟨s1, h1, s2, h2, hlit, hs'⟩ := h
  obtain ⟨hsp1, -⟩ := run_loop_span (fun _ _ ht => next_char_span ht) h1
  have hstep2 : Span s1 s2 ∧ s1.position < s2.position := by
    split at h2
    · simp only [LexResult.bind_eq_ok, LexResult.ok.injEq] at h2
      obtain ⟨⟨lit2, s2x⟩, hrq, hr2⟩ := h2
      have ho := read_quoted_out hrq
      exact hr2 ▸ ⟨ho.span, ho.pos_lt⟩
    · simp only [LexResult.bind_eq_ok, LexResult.ok.injEq] at h2
      obtain ⟨⟨lit2, s2x⟩, hri, hr2⟩ := h2
      have ho := read_identifier_out hri
      exact hr2 ▸ ⟨ho.span, ho.pos_lt⟩
  obtain ⟨hsp2, hlt2⟩ := hstep2
  have hsp := hsp1.trans hsp2
  have hro : ReadOut s lit s2 := by
    have hlt : s.position < s2.position := by
      have := hsp1.pos_le; omega
    refine ReadOut.of_span hsp hlt ?_
    rw [← hlit]; exact filter_slice_final hsp.input_eq
  exact hs' ▸ hro

/-! ## One dispatch step -/

theorem get_char_zero_slice {s : Lexer} {c : Char} (h : s.get_char 0 = some c) :
    s.position < s.input.length ∧ sliceCh s.input s.position (s.position + 1) = [c] := by
  unfold Lexer.get_char at h
  rw [Nat.add_zero, List.getElem?_eq_some_iff] at h
  obtain ⟨hlt, hc⟩ := h
  exact ⟨hlt, by rw [sliceCh_single hlt, hc]⟩

theorem get_char_pair_slice {s : Lexer} {a b : Char} (h0 : s.get_char 0 = some a)
    (h1 : s.get_char 1 = some b) :
    s.position + 1 < s.input.length ∧ sliceCh s.input s.position (s.position + 2) = [a, b] := by
  unfold Lexer.get_char at h0 h1
  rw [Nat.add_zero, List.getElem?_eq_some_iff] at h0
  rw [List.getElem?_eq_some_iff] at h1
  obtain ⟨hlt0, hc0⟩ := h0
  obtain ⟨hlt1, hc1⟩ := h1
  exact ⟨hlt1, by rw [sliceCh_pair hlt1, hc0, hc1]⟩

theorem is_digit_of_range {c : Char} (h1 : '0' ≤ c) (h2 : c ≤ '9') :
    is_digit (some c) = true := by
  have h1' : (48 : UInt32) ≤ c.val := h1
  have h2' : c.val ≤ (57 : UInt32) := h2
  unfold is_digit Char.isDigit
  simp only [ge_iff_le, Bool.and_eq_true, decide_eq_true_eq]
  exact ⟨h1', h2'⟩

/-- One successful token-producing dispatch step, seen from the state before
it: exactly one token is appended, the cursor moves strictly forward and stays
in bounds, the depth counter stays non-negative, and the consumed slice has
the literal's non-whitespace content. -/
structure TokenStep (s : Lexer) (t : Token) (s' : Lexer) : Prop where
  input_eq : s'.input = s.input
  tokens_eq : s'.tokens = s.tokens ++ [t]
  pos_lt : s.position < s'.position
  pos_le_len : s'.position ≤ s.input.length
  depth_nonneg : 0 ≤ s.type_declaration_depth → 0 ≤ s'.type_declaration_depth
  filter_eq : filter_non_ws (sliceCh s.input s.position s'.position) = filter_non_ws t.literal

theorem TokenStep.of_single {s s' : Lexer} {t : Token} {line col : Nat} {ch : Char}
    (hch : s.get_char 0 = some ch)
    (h : Lexer.single_char_token s line col ch = LexResult.ok (t, s')) :
    TokenStep s t s' ∧ s'.type_declaration_depth = s.type_declaration_depth := by
  obtain ⟨hlt0, hslice⟩ := get_char_zero_slice hch
  unfold Lexer.single_char_token Lexer.construct_token at h
  simp only [LexResult.bind_eq_ok, LexResult.ok.injEq, Prod.mk.injEq] at h
  obtain ⟨s1, h1, ht, hs'⟩ := h
  obtain ⟨hi, htk, hdp, hp, hl⟩ := next_char_ok h1
  subst ht
  subst hs'
  refine ⟨⟨?_, ?_, ?_, ?_, ?_, ?_⟩, ?_⟩
  · show s1.input = s.input
    exact hi
  · show s1.tokens ++ [Token.new line col [ch]] = s.tokens ++ [Token.new line col [ch]]
    rw [htk]
  · show s.position < s1.position
    omega
  · show s1.position ≤ s.input.length
    omega
  · intro h0
    show 0 ≤ s1.type_declaration_depth
    rw [hdp]
    exact h0
  · show filter_non_ws (sliceCh s.input s.position s1.position) =
      filter_non_ws (Token.new line col [ch]).literal
    rw [hp, hslice]
    rfl
  · show s1.type_declaration_depth = s.type_declaration_depth
    exact hdp

theorem TokenStep.of_double {s s' : Lexer} {t : Token} {line col : Nat} {a b : Char}
    (h0 : s.get_char 0 = some a) (h1 : s.get_char 1 = some b)
    (h : Lexer.double_char_token s line col [a, b] = LexResult.ok (t, s')) :
    TokenStep s t s' ∧ s'.type_declaration_depth = s.type_declaration_depth := by
  obtain ⟨hlt1, hslice⟩ := get_char_pair_slice h0 h1
  unfold Lexer.double_char_token Lexer.construct_token at h
  simp only [LexResult.bind_eq_ok, LexResult.ok.injEq, Prod.mk.injEq] at h
  obtain ⟨s1, hn1, s2, hn2, ht, hs'⟩ := h
  obtain ⟨hi1, htk1, hdp1, hp1, hl1⟩ := next_char_ok hn1
  obtain ⟨hi2, htk2, hdp2, hp2, hl2⟩ := next_char_ok hn2
  subst ht
  subst hs'
  refine ⟨⟨?_, ?_, ?_, ?_, ?_, ?_⟩, ?_⟩
  · show s2.input = s.input
    rw [hi2, hi1]
  · show s2.tokens ++ [Token.new line col [a, b]] = s.tokens ++ [Token.new line col [a, b]]
    rw [htk2, htk1]
  · show s.position < s2.position
    omega
  · show s2.position ≤ s.input.length
    omega
  · intro hd
    show 0 ≤ s2.type_declaration_depth
    rw [hdp2, hdp1]
    exact hd
  · show filter_non_ws (sliceCh s.input s.position s2.position) =
      filter_non_ws (Token.new line col [a, b]).literal
    rw [hp2, hp1, hslice]
    rfl
  · show s2.type_declaration_depth = s.type_declaration_depth
    rw [hdp2, hdp1]

theorem TokenStep.of_read {read : Lexer → LexResult (List Char × Lexer)} {s s' : Lexer}
    {t : Token} {line col : Nat}
    (hout : ∀ lit s2, read s = LexResult.ok (lit, s2) → ReadOut s lit s2)
    (h : Lexer.read_token read s line col = LexResult.ok (t, s')) :
    TokenStep s t s' ∧ s'.type_declaration_depth = s.type_declaration_depth := by
  unfold Lexer.read_token Lexer.construct_token at h
  simp only [LexResult.bind_eq_ok, LexResult.ok.injEq, Prod.mk.injEq] at h
  obtain ⟨⟨lit, s2⟩, hr, ht, hs'⟩ := h
  have ho := hout lit s2 hr
  subst ht
  subst hs'
  refine ⟨⟨?_, ?_, ?_, ?_, ?_, ?_⟩, ?_⟩
  · show s2.input = s.input
    exact ho.input_eq
  · show s2.tokens ++ [Token.new line col lit] = s.tokens ++ [Token.new line col lit]
    rw [ho.tokens_eq]
  · show s.position < s2.position
    exact ho.pos_lt
  · show s2.position ≤ s.input.length
    exact ho.pos_le_len
  · intro hd
    show 0 ≤ s2.type_declaration_depth
    rw [ho.depth_eq]
    exact hd
  · show filter_non_ws (sliceCh s.input s.position s2.position) =
      filter_non_ws (Token.new line col lit).literal
    exact ho.filter_eq
  · show s2.type_declaration_depth = s.type_declaration_depth
    exact ho.depth_eq

/-- Composing the initial whitespace skip with one dispatch step. -/
theorem TokenStep.comp {s s1 s' : Lexer} {t : Token} (hsp : Span s s1)
    (hws : filter_non_ws (sliceCh s.input s.position s1.position) = [])
    (hpos : s.position ≤ s.input.length) (hts : TokenStep s1 t s') : TokenStep s t s' := by
  have hb1 : s1.position ≤ s.input.length := by
    rcases hsp.pos_bound with hb | hb
    · exact hb
    · omega
  have hlen : s1.input.length = s.input.length := by rw [hsp.input_eq]
  refine ⟨hts.input_eq.trans hsp.input_eq, ?_, ?_, by rw [← hlen]; exact hts.pos_le_len, ?_, ?_⟩
  · rw [hts.tokens_eq, hsp.tokens_eq]
  · have := hsp.pos_le
    have := hts.pos_lt
    omega
  · intro h0
    exact hts.depth_nonneg (by rw [hsp.depth_eq]; exact h0)
  · rw [sliceCh_append hsp.pos_le (le_of_lt hts.pos_lt) hb1, filter_non_ws_append, hws,
      List.nil_append, ← hsp.input_eq]
    exact hts.filter_eq

theorem skip_whitespace_out {s s1 : Lexer} (h : s.skip_whitespace = LexResult.ok s1) :
    Span s s1 ∧ filter_non_ws (sliceCh s.input s.position s1.position) = [] := by
  have hsp := (run_loop_span (fun _ _ ht => next_char_span ht) h).1
  unfold Lexer.skip_whitespace Lexer.run_loop at h
  exact ⟨hsp, ws_loop_filter _ h⟩

/-- `next_token` returning a token: the full guarantee of one dispatch step
(lexer.rs lines 88-247). -/
theorem next_token_ok_some {s s' : Lexer} {t : Token}
    (hpos : s.position ≤ s.input.length)
    (h : s.next_token = LexResult.ok (some t, s')) : TokenStep s t s' := by
  unfold Lexer.next_token at h
  rw [LexResult.bind_eq_ok] at h
  obtain ⟨s1, hws, h⟩ := h
  obtain ⟨hsp1, hwf⟩ := skip_whitespace_out hws
  cases hch : s1.get_char 0 with
  | none =>
    rw [hch] at h
    simp at h
  | some ch =>
    rw [hch] at h
    simp only [] at h
    rw [LexResult.bind_eq_ok] at h
    obtain ⟨p, hbr, hwrap⟩ := h
    obtain ⟨t0, s2⟩ := p
    simp only [LexResult.ok.injEq, Prod.mk.injEq, Option.some.injEq] at hwrap
    obtain ⟨ht0, hs2⟩ := hwrap
    rw [← ht0, ← hs2]
    refine TokenStep.comp hsp1 hwf hpos ?_
    clear hws ht0 hs2 hsp1 hwf hpos
    split at hbr
    -- '.'
    · split at hbr
      · split at hbr
        · exact (TokenStep.of_read
            (fun lit sx hr => read_number_out (Or.inr hch) hr) hbr).1
        · exact (TokenStep.of_single hch hbr).1
      · exact (TokenStep.of_single hch hbr).1
    -- '#'
    · exact (TokenStep.of_read
        (fun lit sx hr => read_comment_out (by rw [hch]; decide) hr) hbr).1
    -- backtick
    · exact (TokenStep.of_read (fun lit sx hr => read_quoted_out hr) hbr).1
    -- double quote
    · split at hbr
      · exact (TokenStep.of_read (fun lit sx hr => read_multiline_string_out hr) hbr).1
      · exact (TokenStep.of_read (fun lit sx hr => read_quoted_out hr) hbr).1
    -- single quote
    · split at hbr
      · exact (TokenStep.of_read (fun lit sx hr => read_multiline_string_out hr) hbr).1
      · exact (TokenStep.of_read (fun lit sx hr => read_quoted_out hr) hbr).1
    -- minus
    · split at hbr
      · exact (TokenStep.of_read
          (fun lit sx hr => read_comment_out (by rw [hch]; decide) hr) hbr).1
      · exact (TokenStep.of_single hch hbr).1
    -- slash
    · split at hbr
      · exact (TokenStep.of_read (fun lit sx hr => read_multiline_comment_out hr) hbr).1
      · exact (TokenStep.of_single hch hbr).1
    -- pipe
    · split at hbr
      case isTrue hc =>
        exact (TokenStep.of_double hch (eq_of_beq hc) hbr).1
      case isFalse =>
        exact (TokenStep.of_single hch hbr).1
    -- left angle bracket
    · split at hbr
      case isTrue hc =>
        exact (TokenStep.of_double hch (eq_of_beq hc) hbr).1
      case isFalse =>
        split at hbr
        case isTrue hc =>
          exact (TokenStep.of_double hch (eq_of_beq hc) hbr).1
        case isFalse =>
          split at hbr
          case isTrue hc =>
            exact (TokenStep.of_double hch (eq_of_beq hc) hbr).1
          case isFalse =>
            split at hbr
            · exact LexResult.noConfusion hbr
            · split at hbr
              case isTrue =>
                obtain ⟨hts, hdp⟩ := TokenStep.of_single
                  (show ({ s1 with type_declaration_depth :=
                      s1.type_declaration_depth + 1 } : Lexer).get_char 0 = some '<' from hch)
                  hbr
                have hdp' : s2.type_declaration_depth = s1.type_declaration_depth + 1 := hdp
                refine ⟨hts.input_eq, hts.tokens_eq, hts.pos_lt, hts.pos_le_len, ?_,
                  hts.filter_eq⟩
                intro h0
                omega
              case isFalse =>
                exact (TokenStep.of_single hch hbr).1
    -- right angle bracket
    · split at hbr
      case isTrue hgt =>
        obtain ⟨hts, hdp⟩ := TokenStep.of_single
          (show ({ s1 with type_declaration_depth :=
              s1.type_declaration_depth - 1 } : Lexer).get_char 0 = some '>' from hch)
          hbr
        have hdp' : s2.type_declaration_depth = s1.type_declaration_depth - 1 := hdp
        refine ⟨hts.input_eq, hts.tokens_eq, hts.pos_lt, hts.pos_le_len, ?_, hts.filter_eq⟩
        intro h0
        omega
      case isFalse =>
        split at hbr
        case isTrue hc =>
          exact (TokenStep.of_double hch (eq_of_beq hc) hbr).1
        case isFalse =>
          split at hbr
          case isTrue hc =>
            exact (TokenStep.of_double hch (eq_of_beq hc) hbr).1
          case isFalse =>
            exact (TokenStep.of_single hch hbr).1
    -- equals
    · split at hbr
      case isTrue hc =>
        exact (TokenStep.of_double hch (eq_of_beq hc) hbr).1
      case isFalse =>
        exact (TokenStep.of_single hch hbr).1
    -- bang
    · split at hbr
      case isTrue hc =>
        exact (TokenStep.of_double hch (eq_of_beq hc) hbr).1
      case isFalse =>
        exact (TokenStep.of_single hch hbr).1
    -- at sign
    · exact (TokenStep.of_read (fun lit sx hr => read_parameter_out hr) hbr).1
    -- default: digit, identifier start, or any other single character
    · split at hbr
      case isTrue hc =>
        refine (TokenStep.of_read (fun lit sx hr => read_number_out (Or.inl ?_) hr) hbr).1
        rw [hch]
        exact is_digit_of_range hc.1 hc.2
      case isFalse =>
        split at hbr
        · exact (TokenStep.of_read (fun lit sx hr => read_identifier_out hr) hbr).1
        · exact (TokenStep.of_single hch hbr).1

/-- `next_token` returning `None`: only whitespace remained, and the cursor
stops at the end of the input. -/
theorem next_token_ok_none {s s' : Lexer}
    (hpos : s.position ≤ s.input.length)
    (h : s.next_token = LexResult.ok (none, s')) :
    s'.input = s.input ∧ s'.tokens = s.tokens ∧
    s'.type_declaration_depth = s.type_declaration_depth ∧
    s'.position = s.input.length ∧
    filter_non_ws (s.input.drop s.position) = [] := by
  unfold Lexer.next_token at h
  rw [LexResult.bind_eq_ok] at h
  obtain ⟨s1, hws, h⟩ := h
  obtain ⟨hsp1, hwf⟩ := skip_whitespace_out hws
  cases hch : s1.get_char 0 with
  | some ch =>
    rw [hch] at h
    simp only [] at h
    rw [LexResult.bind_eq_ok] at h
    obtain ⟨p, -, hwrap⟩ := h
    simp at hwrap
  | none =>
    rw [hch] at h
    simp only [LexResult.ok.injEq, Prod.mk.injEq, true_and] at h
    have hge : s1.input.length ≤ s1.position := by
      unfold Lexer.get_char at hch
      rw [Nat.add_zero, List.getElem?_eq_none_iff] at hch
      exact hch
    have hb1 : s1.position ≤ s.input.length := by
      rcases hsp1.pos_bound with hb | hb
      · exact hb
      · omega
    have hp1 : s1.position = s.input.length := by
      rw [hsp1.input_eq] at hge
      omega
    subst h
    refine ⟨hsp1.input_eq, hsp1.tokens_eq, hsp1.depth_eq, hp1, ?_⟩
    rw [hp1, sliceCh_length] at hwf
    exact hwf

/-! ## The driver loop -/

theorem concat_literals_append (a b : List Token) :
    concat_literals (a ++ b) = concat_literals a ++ concat_literals b := by
  induction a with
  | nil => rfl
  | cons t a ih => simp [concat_literals] at ih ⊢; rw [ih]

theorem concat_literals_single (t : Token) : concat_literals [t] = t.literal := by
  simp [concat_literals]

/-- Every successful `tokenize_code` run ends in the end-of-stream token
(lexer.rs line 56). -/
theorem tokenize_loop_shape : ∀ (fuel : Nat) {s : Lexer} {ts : List Token},
    Lexer.tokenize_loop fuel s = LexResult.ok ts → ∃ pre, ts = pre ++ [Token.eof] := by
  intro fuel
  induction fuel with
  | zero => intro s ts h; cases h
  | succ m ih =>
    intro s ts h
    rw [Lexer.tokenize_loop, LexResult.bind_eq_ok] at h
    obtain ⟨r, hnt, h⟩ := h
    split at h
    · exact ih h
    · simp only [LexResult.ok.injEq] at h
      exact ⟨r.2.tokens, h.symm⟩

/-- The accumulated invariant of the driver loop: the non-whitespace content
of all literals produced equals the non-whitespace content of what has been
consumed. -/
theorem tokenize_loop_filter : ∀ (fuel : Nat) {s : Lexer} {ts : List Token},
    s.position ≤ s.input.length →
    Lexer.tokenize_loop fuel s = LexResult.ok ts →
    filter_non_ws (concat_literals ts) =
      filter_non_ws (concat_literals s.tokens ++ s.input.drop s.position) := by
  intro fuel
  induction fuel with
  | zero => intro s ts hpos h; cases h
  | succ m ih =>
    intro s ts hpos h
    rw [Lexer.tokenize_loop, LexResult.bind_eq_ok] at h
    obtain ⟨r, hnt, h⟩ := h
    obtain ⟨ro, s2⟩ := r
    cases ro with
    | some t =>
      simp only [] at h
      have hts := next_token_ok_some hpos hnt
      have hpos2 : s2.position ≤ s2.input.length := by
        rw [hts.input_eq]
        exact hts.pos_le_len
      have hrec := ih hpos2 h
      have hdrop : s.input.drop s.position =
          sliceCh s.input s.position s2.position ++ s.input.drop s2.position :=
        drop_eq_sliceCh_append (le_of_lt hts.pos_lt) hts.pos_le_len
      rw [hrec, hts.tokens_eq, hts.input_eq, hdrop, concat_literals_append,
        concat_literals_single]
      simp only [filter_non_ws_append, List.append_assoc]
      rw [← hts.filter_eq]
    | none =>
      simp only [LexResult.ok.injEq] at h
      obtain ⟨-, htk, -, -, hfe⟩ := next_token_ok_none hpos hnt
      rw [← h, htk, concat_literals_append, concat_literals_single]
      simp only [filter_non_ws_append, hfe]
      simp [Token.eof, Token.new, filter_non_ws]

/-- The depth counter stays non-negative across any number of `next_token`
steps. -/
theorem step_n_inv : ∀ (n : Nat) {s s' : Lexer}, step_n n s = LexResult.ok s' →
    0 ≤ s.type_declaration_depth → s.position ≤ s.input.length →
    0 ≤ s'.type_declaration_depth := by
  intro n
  induction n with
  | zero =>
    intro s s' h hd hpos
    simp only [step_n, LexResult.ok.injEq] at h
    rw [← h]
    exact hd
  | succ m ih =>
    intro s s' h hd hpos
    rw [step_n, LexResult.bind_eq_ok] at h
    obtain ⟨r, hnt, h⟩ := h
    obtain ⟨ro, s2⟩ := r
    simp only [] at h
    cases ro with
    | some t =>
      have hts := next_token_ok_some hpos hnt
      refine ih h (hts.depth_nonneg hd) ?_
      rw [hts.input_eq]
      exact hts.pos_le_len
    | none =>
      obtain ⟨hi, -, hdp, hp, -⟩ := next_token_ok_none hpos hnt
      refine ih h (by rw [hdp]; exact hd) ?_
      rw [hi, hp]

/-- `skip_whitespace` on an all-whitespace remainder: consumes everything. -/
theorem skip_whitespace_total_ws {s : Lexer}
    (hws : ∀ i c, s.position ≤ i → s.input[i]? = some c → char_is_whitespace c = true)
    (hpos : s.position ≤ s.input.length) :
    ∃ s', s.skip_whitespace = LexResult.ok s' ∧ s'.input = s.input ∧
      s'.tokens = s.tokens ∧ s'.type_declaration_depth = s.type_declaration_depth ∧
      s'.position = s.input.length := by
  unfold Lexer.skip_whitespace Lexer.run_loop
  exact ws_loop_total _ s hws hpos (le_refl _)

/-- Unfolding one iteration of the driver loop. -/
theorem tokenize_loop_succ (fuel : Nat) (s : Lexer) :
    Lexer.tokenize_loop (fuel + 1) s = LexResult.bind s.next_token (fun r =>
      match r.1 with
      | some _ => Lexer.tokenize_loop fuel r.2
      | none => LexResult.ok (r.2.tokens ++ [Token.eof])) := rfl

/-! ## The claims -/

/-- C1: tokenizing `ARRAY<STRUCT<INT64, INT64>>` yields the literals `ARRAY`,
`<`, `STRUCT`, `<`, `INT64`, `,`, `INT64`, `>`, `>` followed by the
end-of-stream token: each closing `>` is a separate single-character token
(never `>>` or `>=`), because each `<` scanned right after a token whose
literal is case-insensitively ARRAY or STRUCT increments the depth counter and
each `>` scanned at positive depth decrements it and is emitted alone. -/
theorem tokenize_array_struct_single_angle_tokens :
    tokenize ("ARRAY<STRUCT<INT64, INT64>>".toList) =
      LexResult.ok
        [Token.new 1 1 ("ARRAY".toList), Token.new 1 6 ['<'],
         Token.new 1 7 ("STRUCT".toList), Token.new 1 13 ['<'],
         Token.new 1 14 ("INT64".toList), Token.new 1 19 [','],
         Token.new 1 21 ("INT64".toList), Token.new 1 26 ['>'],
         Token.new 1 27 ['>'], Token.eof] := by
  decide

/-- C2 (counterexample): on the input `<` the scanner neither succeeds nor
returns a scan error — the `<` dispatch branch reads the previous token from
an empty token list and panics — so the claim "for every input, tokenize
either succeeds or fails with a ScanError" is false as stated. -/
theorem tokenize_single_lt_neither_ok_nor_err :
    ¬ ((∃ ts, tokenize ("<".toList) = LexResult.ok ts) ∨
       (∃ e, tokenize ("<".toList) = LexResult.err e)) := by
  intro h
  have hp : tokenize ("<".toList) = LexResult.panicked := by decide
  rcases h with ⟨ts, h⟩ | ⟨e, h⟩ <;> rw [h] at hp <;> exact LexResult.noConfusion hp

/-- C2 (amended): for every input on which tokenize does not panic, it either
succeeds — returning a token sequence terminated by the end-of-stream token —
or fails with exactly one ScanError carrying no tokens. -/
theorem tokenize_nonpanic_ok_or_err :
    ∀ input : List Char, tokenize input ≠ LexResult.panicked →
      (∃ ts, tokenize input = LexResult.ok ts ∧ ts.getLast? = some Token.eof) ∨
      (∃ e, tokenize input = LexResult.err e) := by
  intro input hnp
  cases htot : tokenize input with
  | ok ts =>
    left
    refine ⟨ts, rfl, ?_⟩
    obtain ⟨pre, hpre⟩ := tokenize_loop_shape _ htot
    rw [hpre]
    exact List.getLast?_concat _
  | err e => exact Or.inr ⟨e, rfl⟩
  | panicked => exact absurd htot hnp

theorem tokenize_nonpanic_ok_or_err_witness :
    (∃ ts, tokenize ("1".toList) = LexResult.ok ts ∧ ts.getLast? = some Token.eof) ∨
    (∃ e, tokenize ("1".toList) = LexResult.err e) :=
  tokenize_nonpanic_ok_or_err ("1".toList) (by decide)

/-- C3 (counterexample): the "Invalid character as an identifier." error IS
returned by tokenize for the external input `@1`: the bind-parameter scanner
invokes the identifier scanner on the character after the `@` run without
checking it first. -/
theorem tokenize_at_digit_invalid_ident_error :
    tokenize ("@1".toList) =
      LexResult.err (LexerError.new 1 2 ("Invalid character as an identifier.")) := by
  decide

/-- C3 (amended): the defensive start-character check never fires when
`read_identifier` is entered with a valid identifier-start character under the
cursor — in particular the top-level identifier dispatch, which tests the
character first, can never trigger it — but the error is reachable from
external input through the bind-parameter scanner, e.g. on `@1`. -/
theorem read_identifier_ok_of_valid_start :
    (∀ s : Lexer, is_valid_1st_char_of_ident (s.get_char 0) = true →
      ∃ r, s.read_identifier = LexResult.ok r) ∧
    tokenize ("@1".toList) =
      LexResult.err (LexerError.new 1 2 ("Invalid character as an identifier.")) := by
  constructor
  · intro s hv
    rcases hg : s.get_char 0 with - | c
    · rw [hg] at hv
      simp [is_valid_1st_char_of_ident] at hv
    · have hlt : s.position < s.input.length := (get_char_zero_slice hg).1
      obtain ⟨s1, hnc, hi1, htk1, hdp1, hp1⟩ := next_char_total hlt
      have hcond : ∀ t : Lexer, t.input.length ≤ t.position →
          (fun t : Lexer => is_valid_char_of_ident (t.get_char 0)) t = false := by
        intro t ht
        have hn : t.get_char 0 = none := by
          unfold Lexer.get_char
          rw [List.getElem?_eq_none_iff]
          omega
        show is_valid_char_of_ident (t.get_char 0) = false
        rw [hn]
        rfl
      obtain ⟨s2, hloop⟩ :=
        loop_next_char_total hcond (s1.input.length + 1 - s1.position) s1
          (by rw [hi1, hp1]; omega) (le_refl _)
      refine ⟨(sliceCh s2.input s.position s2.position, s2), ?_⟩
      unfold Lexer.read_identifier
      simp only [hv, Bool.not_true, Bool.false_eq_true, if_false]
      rw [hnc]
      simp only [LexResult.bind]
      unfold Lexer.run_loop
      rw [hloop]
  · decide

theorem read_identifier_ok_of_valid_start_witness :
    ∃ r, (Lexer.new ['a']).read_identifier = LexResult.ok r :=
  read_identifier_ok_of_valid_start.1 (Lexer.new ['a']) (by decide)

/-- C4: tokenize is not total into `Ok`/`Err`: on the input `<` (a `<` with no
second character and no preceding token) the dispatch reads
`tokens.last().unwrap()` on an empty token list and panics. -/
theorem tokenize_single_lt_panics : tokenize ("<".toList) = LexResult.panicked := by
  decide

/-- C5: the octal-escape branch of `skip_escaped_char` consumes one character
too many — the octal digit plus three more characters instead of plus two —
so the well-formed literal `'\101'` loses its closing quote to the escape and
tokenize fails with an end-of-input error instead of producing one string
token. -/
theorem tokenize_octal_escape_overrun_eof :
    tokenize ("'\\101'".toList) =
      LexResult.err (LexerError.new 1 7 ("Unexpected EOF.")) := by
  decide

/-- C6 (counterexample): the claim that the last token's position equals the
final cursor position fails, e.g. on the input `a`, whose final cursor is
(1, 2) while the end-of-stream token carries the fixed position of the
nullary `Token::eof`. -/
theorem eof_token_position_not_final_cursor :
    ¬ (∀ (input : List Char) (ts : List Token), tokenize input = LexResult.ok ts →
        ∃ tk, ts.getLast? = some tk ∧ tk.literal = [] ∧
          tk.line = (cursor_after input).1 ∧ tk.column = (cursor_after input).2) := by
  intro hclaim
  obtain ⟨tk, hlast, -, hline, -⟩ :=
    hclaim ("a".toList) [Token.new 1 1 ['a'], Token.eof] (by decide)
  have hsome : ([Token.new 1 1 ['a'], Token.eof].getLast?) = some Token.eof := rfl
  rw [hsome] at hlast
  injection hlast with hk
  rw [← hk] at hline
  exact absurd hline (by decide)

/-- C6 (amended): for every input on which tokenize succeeds, the last element
of the returned sequence is the end-of-stream token, whose literal is empty;
its position is the fixed constant of the nullary `Token::eof`, not the final
cursor position. -/
theorem tokenize_ok_ends_with_eof_token :
    ∀ (input : List Char) (ts : List Token), tokenize input = LexResult.ok ts →
      ts.getLast? = some Token.eof ∧ Token.eof.literal = [] := by
  intro input ts h
  obtain ⟨pre, hpre⟩ := tokenize_loop_shape _ h
  refine ⟨?_, rfl⟩
  rw [hpre]
  exact List.getLast?_concat _

theorem tokenize_ok_ends_with_eof_token_witness :
    [Token.new 1 1 ['a'], Token.eof].getLast? = some Token.eof ∧ Token.eof.literal = [] :=
  tokenize_ok_ends_with_eof_token ("a".toList) [Token.new 1 1 ['a'], Token.eof] (by decide)

/-- C7: on every input on which tokenize succeeds, concatenating the literals
of all returned tokens and removing whitespace reconstructs the input's
non-whitespace content in order: no non-whitespace character is dropped,
duplicated or reordered. -/
theorem tokenize_literals_reconstruct_non_ws :
    ∀ (input : List Char) (ts : List Token), tokenize input = LexResult.ok ts →
      filter_non_ws (concat_literals ts) = filter_non_ws input := by
  intro input ts h
  have h2 := tokenize_loop_filter
    ((Lexer.new input).input.length + 1 - (Lexer.new input).position) (Nat.zero_le _) h
  simpa [concat_literals, Lexer.new] using h2

theorem tokenize_literals_reconstruct_non_ws_witness :
    filter_non_ws (concat_literals [Token.new 1 1 ['1'], Token.eof]) =
      filter_non_ws ("1".toList) :=
  tokenize_literals_reconstruct_non_ws ("1".toList) [Token.new 1 1 ['1'], Token.eof]
    (by decide)

/-- C8: the depth counter is never negative in any reachable scanner state: it
starts at zero, is incremented only on a `<` scanned right after ARRAY/STRUCT,
and is decremented only under the guard that it is positive. -/
theorem type_declaration_depth_nonneg_reachable :
    ∀ (input : List Char) (n : Nat) (s : Lexer),
      step_n n (Lexer.new input) = LexResult.ok s → 0 ≤ s.type_declaration_depth := by
  intro input n s h
  exact step_n_inv n h (le_refl _) (Nat.zero_le _)

theorem type_declaration_depth_nonneg_reachable_witness :
    (0 : Int) ≤ (Lexer.mk ['a'] 1 1 2 0 [Token.new 1 1 ['a']]).type_declaration_depth :=
  type_declaration_depth_nonneg_reachable ['a'] 1
    (Lexer.mk ['a'] 1 1 2 0 [Token.new 1 1 ['a']]) (by decide)

/-- C9: tokenizing `"abc` (an unterminated string) fails with the end-of-input
error positioned at the cursor position where end-of-input was hit, line 1
column 5; in general, advancing the cursor at end-of-input yields a ScanError
carrying the cursor's current line and column. -/
theorem tokenize_unterminated_quote_eof_error :
    tokenize ("\"abc".toList) = LexResult.err (LexerError.eof 1 5) ∧
    ∀ s : Lexer, s.position = s.input.length →
      s.next_char = LexResult.err (LexerError.eof s.line s.column) := by
  constructor
  · decide
  · intro s hp
    unfold Lexer.next_char
    rw [dif_neg (by omega), if_pos hp]

theorem tokenize_unterminated_quote_eof_error_witness :
    (Lexer.new []).next_char = LexResult.err (LexerError.eof 1 1) :=
  tokenize_unterminated_quote_eof_error.2 (Lexer.new []) rfl

/-- C10: on every input consisting solely of whitespace characters (the empty
input included), tokenize succeeds and returns exactly the end-of-stream
token: whitespace produces no token and end-of-input at top level ends the
scan successfully. -/
theorem tokenize_whitespace_only_single_eof :
    ∀ input : List Char, (∀ c ∈ input, char_is_whitespace c = true) →
      tokenize input = LexResult.ok [Token.eof] := by
  intro input hws
  have hws' : ∀ i c, (Lexer.new input).position ≤ i →
      (Lexer.new input).input[i]? = some c → char_is_whitespace c = true := by
    intro i c hi hc
    rw [List.getElem?_eq_some_iff] at hc
    obtain ⟨hlt, hcc⟩ := hc
    exact hws c (hcc ▸ List.getElem_mem hlt)
  obtain ⟨s1, hsw, hi, htk, hdp, hp⟩ := skip_whitespace_total_ws hws' (Nat.zero_le _)
  have hi' : s1.input = input := hi
  have hp' : s1.position = input.length := hp
  have htk' : s1.tokens = [] := htk
  have hg : s1.get_char 0 = none := by
    unfold Lexer.get_char
    rw [Nat.add_zero, List.getElem?_eq_none_iff, hi', hp']
  have hnt : (Lexer.new input).next_token = LexResult.ok (none, s1) := by
    unfold Lexer.next_token
    rw [hsw]
    simp only [LexResult.bind, hg]
  have h0 : tokenize input = Lexer.tokenize_loop (input.length + 1) (Lexer.new input) := rfl
  rw [h0, tokenize_loop_succ, hnt]
  simp [LexResult.bind, htk']

theorem tokenize_whitespace_only_single_eof_witness :
    tokenize [' ', '\u000B'] = LexResult.ok [Token.eof] :=
  tokenize_whitespace_only_single_eof [' ', '\u000B'] (by decide)

end Bq2cst
